import Mathlib

/-!
Shallow embedding of the commit-classification and version-bump core of the
bump-n-go repository (src/commits.ts, src/bump.ts, src/constants.ts and the
decision head of the orchestrator), together with theorems settling the
frozen claims about that code.

Strings are modelled with Lean `String`/`List Char`; the JavaScript regular
expressions used by the source are translated into explicit character-list
matchers.  The conventional-commits-parser library (an external dependency,
configured in src/commits.ts lines 7-12) is modelled to the extent the
configuration exercises it: header matching against `headerPattern` and
`breakingHeaderPattern`, note extraction for the configured `noteKeywords`,
and the synthesis of a `BREAKING CHANGE` note when the breaking header
matches and the body carried no notes.  The repository's own test suite
(tests on parseCommits) pins this behaviour and is cited where relevant.
-/

namespace BumpNGo

/-- Decidable prefix test on character lists (JS `String.startsWith`). -/
def listPre : List Char → List Char → Bool
  | [], _ => true
  | _ :: _, [] => false
  | p :: ps, c :: cs => p = c && listPre ps cs

/-- Decidable substring test on character lists (JS `String.includes`). -/
def listSub (pat : List Char) : List Char → Bool
  | [] => listPre pat []
  | c :: rest => listPre pat (c :: rest) || listSub pat rest

/-- JS `s.includes(pat)` on Lean strings. -/
def strContains (s pat : String) : Bool := listSub pat.data s.data

/-- JS `s.startsWith(pat)` on Lean strings. -/
def strStarts (s pat : String) : Bool := listPre pat.data s.data

/-- JS `s.endsWith(pat)` on Lean strings. -/
def strEnds (s pat : String) : Bool := listPre pat.data.reverse s.data.reverse

/-- Consume a literal off the front of a character list, returning the rest. -/
def chopLit : List Char → List Char → Option (List Char)
  | [], rest => some rest
  | _ :: _, [] => none
  | p :: ps, c :: cs => if p = c then chopLit ps cs else none

/-- Word character of the JS `\w` class: ASCII letter, digit or underscore. -/
def isWordChar (c : Char) : Bool := c.isAlphanum || c = '_'

/-- A note attached to a parsed commit (`{title, text}` in the source). -/
structure Note where
  title : String
  text : String
deriving DecidableEq, Repr

/-- Match a keyword case-insensitively at the front of a list, returning the
actual characters matched (case preserved, as the library stores the matched
slice as the note title) and the remainder. -/
def matchCI : List Char → List Char → Option (List Char × List Char)
  | [], rest => some ([], rest)
  | _ :: _, [] => none
  | k :: ks, c :: cs =>
    if c.toLower = k.toLower then
      (matchCI ks cs).map (fun p => (c :: p.1, p.2))
    else none

/-- Separator class `[:\s]` of the library's notes pattern. -/
def isNoteSep (c : Char) : Bool := c = ':' || c.isWhitespace

/-- Model of the library's note matcher for one body line, built from the
configured `noteKeywords: ['BREAKING CHANGE', 'BREAKING CHANGES']` (source
line 11): the pattern is `/^[\s|*]*(KW1|KW2)[:\s]+(.*)/i`, alternation tried
left to right, title stored as matched. -/
def noteMatch (line : String) : Option Note :=
  let cs := line.data.dropWhile (fun c => c.isWhitespace || c = '|' || c = '*')
  let tryKw : String → Option Note := fun kw =>
    match matchCI kw.data cs with
    | some (m, rest) =>
      if (rest.takeWhile isNoteSep).isEmpty then none
      else some (Note.mk (String.mk m) (String.mk (rest.dropWhile isNoteSep)))
    | none => none
  (tryKw "BREAKING CHANGE").orElse (fun _ => tryKw "BREAKING CHANGES")

/-- Header match for the configured patterns (source lines 8 and 10):
`headerPattern: /^(\w*)(?:\(([^)]*)\))?: (.*)$/` when `withBang = false`, and
`breakingHeaderPattern: /^(\w*)(?:\(([^)]*)\))?!: (.*)$/` when `withBang =
true`.  Returns `(type, scope?, subject)`; the greedy `\w*` group is
deterministic because no backtracking alternative exists. -/
def matchHeaderCore (withBang : Bool) (line : String) : Option (String × Option String × String) :=
  let cs := line.data
  let ty := cs.takeWhile isWordChar
  let rest := cs.dropWhile isWordChar
  let scopePart : Option (Option String × List Char) :=
    match rest with
    | '(' :: r =>
      let sc := r.takeWhile (fun c => !(c = ')'))
      (match r.dropWhile (fun c => !(c = ')')) with
       | ')' :: r3 => some (some (String.mk sc), r3)
       | _ => none)
    | _ => some (none, rest)
  match scopePart with
  | none => none
  | some (sc, rest2) =>
    let tail := if withBang then chopLit ['!', ':', ' '] rest2 else chopLit [':', ' '] rest2
    match tail with
    | some subj => some (String.mk ty, sc, String.mk subj)
    | none => none

/-- Fields produced by the commit parser for one raw commit. -/
structure ParsedFields where
  type : Option String
  scope : Option String
  subject : Option String
  notes : List Note
deriving DecidableEq, Repr

/-- Strip leading and trailing newline characters (the library's
`trimNewLines` applied to the input before splitting). -/
def trimNl (s : String) : String :=
  String.mk (((s.data.dropWhile (fun c => c = '\n')).reverse.dropWhile (fun c => c = '\n')).reverse)

/-- Split a character list at newline characters (JS `s.split('\n')`). -/
def splitNl : List Char → List (List Char)
  | [] => [[]]
  | c :: cs =>
    let r := splitNl cs
    if c = '\n' then [] :: r else (c :: r.headD []) :: r.tail

/-- JS `s.split('\n')` on Lean strings. -/
def lineSplit (s : String) : List String := (splitNl s.data).map String.mk

/-- Lines of the parser input: trim outer newlines, then split on newline. -/
def parseLines (input : String) : List String := lineSplit (trimNl input)

/-- Header line of the parser input. -/
def headerLineOf (input : String) : String := (parseLines input).headD ""

/-- Notes extracted from the body lines of the parser input. -/
def bodyNotesOf (input : String) : List Note :=
  (parseLines input).tail.filterMap noteMatch

/-- Model of `parser.parse` for the configuration at src/commits.ts lines
7-12: header correspondence `['type', 'scope', 'subject']` is taken from the
breaking header pattern when it matches (the two patterns are mutually
exclusive on any line) and otherwise from the plain header pattern; body
lines are scanned for notes; if the breaking header matched and the body
yielded no notes, a note titled `BREAKING CHANGE` whose text is the subject
is synthesised.  This note synthesis is the library behaviour the
repository's test `handles commits with breaking change indicator in header`
relies on. -/
def parseRaw (input : String) : ParsedFields :=
  let header := headerLineOf input
  let bodyNotes := bodyNotesOf input
  match matchHeaderCore true header with
  | some (ty, sc, subj) =>
    { type := some ty, scope := sc, subject := some subj
      notes := if bodyNotes.isEmpty then [⟨"BREAKING CHANGE", subj⟩] else bodyNotes }
  | none =>
    match matchHeaderCore false header with
    | some (ty, sc, subj) =>
      { type := some ty, scope := sc, subject := some subj, notes := bodyNotes }
    | none => { type := none, scope := none, subject := none, notes := bodyNotes }

/-- Semantic version bump types (src/types.ts). -/
inductive BumpType where
  | major
  | minor
  | patch
deriving DecidableEq, Repr

/-- The type-to-bump table of src/constants.ts lines 7-20 (`ChangeTypeMapping`). -/
def ChangeTypeMapping : List (String × BumpType) :=
  [("feat", .minor), ("feature", .minor), ("improv", .minor),
   ("fix", .patch), ("docs", .patch), ("style", .patch), ("refactor", .patch),
   ("perf", .patch), ("test", .patch), ("chore", .patch), ("ci", .patch), ("build", .patch)]

/-- Lookup `ChangeTypeMapping[t]` (JS property access, `undefined` as `none`). -/
def changeTypeOf (t : String) : Option BumpType :=
  (ChangeTypeMapping.find? (fun p => p.1 = t)).map (fun p => p.2)

/-- Membership in `Object.keys(ChangeTypeMapping)` (src/commits.ts lines 14-16). -/
def isAllowedType (t : String) : Bool :=
  (ChangeTypeMapping.map (fun p => p.1)).contains t

/-- The `TypeHierarchy` precedence table of src/constants.ts lines 49-53. -/
def TypeHierarchy : BumpType → Nat
  | .major => 3
  | .minor => 2
  | .patch => 1

/-- Parsed conventional commit as stored on a workspace (src/types.ts). -/
structure ParsedCommit where
  subject : String
  type : String
  scope : String
  notes : List Note
  breaking : Bool
  hash : Option String
deriving DecidableEq, Repr

/-- The scan loop of `determineVersionBumpType` (src/bump.ts lines 13-19):
starting from `patch`, upgrade to `minor` and break at the first commit whose
type maps to `minor`. -/
def bumpScanLoop : List ParsedCommit → BumpType
  | [] => .patch
  | c :: rest => if changeTypeOf c.type = some .minor then .minor else bumpScanLoop rest

/-- Faithful translation of `determineVersionBumpType` (src/bump.ts lines
4-22): any breaking commit forces `major`; otherwise the scan loop decides
between `minor` and `patch`. -/
def determineVersionBumpType (parsedCommits : List ParsedCommit) : BumpType :=
  if parsedCommits.any (fun c => c.breaking) then .major
  else bumpScanLoop parsedCommits

/-- Workspace record (src/types.ts); `commits` and `changed` are the fields
mutated by the attribution pass. -/
structure Workspace where
  name : String
  shortName : String
  path : String
  version : String
  changed : Bool
  commits : List ParsedCommit
  dependencyNames : List String
  isPrivate : Bool
deriving DecidableEq, Repr

/-- The `Record<string, Workspace>` of the source, as an association list in
insertion order (JS object keys are unique and iterated in insertion order). -/
abbrev WsMap := List (String × Workspace)

/-- JS property read `workspaces[scope]`. -/
def lookupWs (ws : WsMap) (k : String) : Option Workspace :=
  (ws.find? (fun p => p.1 = k)).map (fun p => p.2)

/-- In-place mutation of the workspace stored under key `k`, modelled as a
functional update of the association list. -/
def updateWs (ws : WsMap) (k : String) (f : Workspace → Workspace) : WsMap :=
  ws.map (fun p => if p.1 = k then (p.1, f p.2) else p)

/-- Raw commit from the VCS collaborator (src/types.ts); `hash` may be
absent. -/
structure RawCommit where
  hash : Option String
  subject : String
  body : String
deriving DecidableEq, Repr

/-- JS truthiness of an optional string: `undefined` and `''` are falsy. -/
def optTruthy : Option String → Bool
  | none => false
  | some s => !(s = "")

/-- Dot class of the JS regex `.` (any character except newline), iterated at
least once, followed by a literal: models `.+<literal>` with backtracking. -/
def dotPlusThen (pat : List Char) : List Char → Bool
  | [] => false
  | c :: cs => !(c = '\n') && (listPre pat cs || dotPlusThen pat cs)

/-- Unanchored search for `bump the .+ group` (the regex of
`isDependabotGroupCommit`, src/commits.ts line 19). -/
def bumpTheGroupTest : List Char → Bool
  | [] => false
  | c :: rest =>
    (match chopLit "bump the ".data (c :: rest) with
     | some r => dotPlusThen " group".data r
     | none => false)
    || bumpTheGroupTest rest

/-- Faithful translation of `isDependabotGroupCommit` (src/commits.ts lines
18-20). -/
def isDependabotGroupCommit (subject scope : String) : Bool :=
  scope = "deps" && bumpTheGroupTest subject.data

/-- JS `line.includes(':')` as used by the diff scanner. -/
def hasColon (line : String) : Bool := line.data.any (fun c => c = ':')

/-- The two section booleans of `hasProductionDependencyChanges`
(src/commits.ts lines 28-29). -/
structure ScanState where
  inDep : Bool
  inDev : Bool
deriving DecidableEq, Repr

/-- The fixed list of other top-level manifest keys that reset both section
flags (src/commits.ts lines 39-60). -/
def boundaryKeys : List String :=
  ["\"peerDependencies\"", "\"optionalDependencies\"", "\"scripts\"", "\"engines\"",
   "\"repository\"", "\"keywords\"", "\"author\"", "\"license\"", "\"bugs\"",
   "\"homepage\"", "\"main\"", "\"module\"", "\"types\"", "\"bin\"", "\"files\"",
   "\"workspaces\"", "\"private\"", "\"name\"", "\"version\"", "\"description\""]

/-- Section-boundary update for one diff line (src/commits.ts lines 32-64):
a line mentioning `"dependencies"` with a colon enters the dependencies
section, `"devDependencies"` with a colon enters the dev section, any of the
other fixed keys resets both, anything else leaves the state unchanged. -/
def stepState (st : ScanState) (line : String) : ScanState :=
  if strContains line "\"dependencies\"" && hasColon line then ⟨true, false⟩
  else if strContains line "\"devDependencies\"" && hasColon line then ⟨false, true⟩
  else if boundaryKeys.any (fun k => strContains line k) then ⟨false, false⟩
  else st

/-- The per-line hit condition of the scanner (src/commits.ts lines 66-75):
inside the dependencies section, a `+`/`-` line that does not itself mention
`"dependencies"` counts as a production-dependency change. -/
def lineHit (st : ScanState) (line : String) : Bool :=
  st.inDep && (strStarts line "+" || strStarts line "-")
    && !(strContains line "\"dependencies\"")

/-- The scan loop of `hasProductionDependencyChanges`: boundary update first,
then the hit test, short-circuiting to `true`. -/
def scanDeps (st : ScanState) : List String → Bool
  | [] => false
  | l :: ls =>
    let st' := stepState st l
    if lineHit st' l then true else scanDeps st' ls

/-- Faithful translation of `hasProductionDependencyChanges` (src/commits.ts
lines 22-79). -/
def hasProductionDependencyChanges (diff : String) : Bool :=
  scanDeps ⟨false, false⟩ (lineSplit diff)

/-- Each line of the scan paired with the section state in force when its
hit test runs (the state after that line's own boundary update).  Used to
state the claim about the scanner extensionally. -/
def statesAlong (st : ScanState) : List String → List (ScanState × String)
  | [] => []
  | l :: ls =>
    let st' := stepState st l
    (st', l) :: statesAlong st' ls

/-- The VCS collaborator interface used by the attribution pass
(src/git.ts `getChangedFiles` and `getFileDiff`), passed in as an oracle. -/
structure GitOracle where
  getChangedFiles : String → String → List String
  getFileDiff : String → String → String → String

/-- Owner lookup for one changed file: the first workspace (in record order)
whose root-relative path, `/`-terminated, prefixes the file path — the inner
loop of `getAffectedWorkspacesFromChangedFiles` (src/commits.ts lines
99-116).  `rel` models `node:path`'s `relative`. -/
def ownerScan (rel : String → String → String) (ws : WsMap) (rootPath file : String) :
    Option (String × Workspace) :=
  ws.find? (fun p => strStarts file (rel rootPath p.2.path ++ "/"))

/-- Processing of one candidate `package.json` path: skip the root manifest,
find the owning workspace, break without any diff request if it is private,
otherwise request the file's diff and keep the workspace when the diff shows
a production-dependency change.  Returns (affected entries, files whose diff
was requested). -/
def fanOutFile (git : GitOracle) (rel : String → String → String) (ws : WsMap)
    (rootPath hash file : String) : List (String × Workspace) × List String :=
  if file = "package.json" then ([], [])
  else
    match ownerScan rel ws rootPath file with
    | none => ([], [])
    | some kw =>
      if kw.2.isPrivate then ([], [])
      else
        let diff := git.getFileDiff rootPath hash file
        (if hasProductionDependencyChanges diff then [kw] else [], [file])

/-- Accumulation of one file's fan-out contribution (affected entries and
diff-request log, appended in loop order). -/
def fanAcc (git : GitOracle) (rel : String → String → String) (ws : WsMap)
    (rootPath hash : String) (acc : List (String × Workspace) × List String)
    (f : String) : List (String × Workspace) × List String :=
  let r := fanOutFile git rel ws rootPath hash f
  (acc.1 ++ r.1, acc.2 ++ r.2)

/-- Instrumented translation of `getAffectedWorkspacesFromChangedFiles`
(src/commits.ts lines 81-121).  The first component is the returned list of
affected workspaces (as map entries); the second records, in order, every
file for which `getFileDiff` was called — the call log the claim about
private workspaces is stated against. -/
def getAffectedWithRequests (git : GitOracle) (rel : String → String → String)
    (changedFiles : List String) (ws : WsMap) (rootPath hash : String) :
    List (String × Workspace) × List String :=
  let packageJsonFiles := changedFiles.filter (fun f => strEnds f "package.json")
  packageJsonFiles.foldl (fanAcc git rel ws rootPath hash) ([], [])

/-- The source function itself: affected workspaces only, without the
instrumentation. -/
def getAffectedWorkspacesFromChangedFiles (git : GitOracle)
    (rel : String → String → String) (changedFiles : List String) (ws : WsMap)
    (rootPath hash : String) : List (String × Workspace) :=
  (getAffectedWithRequests git rel changedFiles ws rootPath hash).1

/-- Push one parsed commit onto a workspace and mark it changed — the
mutation `pkg.changed = true; pkg.commits.push(...)` of the source. -/
def pushCommit (pc : ParsedCommit) (w : Workspace) : Workspace :=
  { w with changed := true, commits := w.commits ++ [pc] }

/-- Update for one affected workspace in the grouped-dependency branch: the
`if (!workspace.isPrivate)` re-check of src/commits.ts line 169, then the
push-and-mark mutation with `workspaceChanged = true`. -/
def groupStep (pc : ParsedCommit) (acc : WsMap × Bool) (kw : String × Workspace) :
    WsMap × Bool :=
  if kw.2.isPrivate then acc
  else (updateWs acc.1 kw.1 (pushCommit pc), true)

/-- The grouped-dependency branch of `parseCommits` (src/commits.ts lines
158-181): resolve affected workspaces via the changed-file fan-out, then
append the commit to every non-private one. -/
def applyGroupFanOut (git : GitOracle) (rel : String → String → String)
    (rootPath hash : String) (pc : ParsedCommit) (st : WsMap × Bool) : WsMap × Bool :=
  let changedFiles := git.getChangedFiles rootPath hash
  let affected := getAffectedWorkspacesFromChangedFiles git rel changedFiles st.1 rootPath hash
  affected.foldl (groupStep pc) st

/-- Update for one workspace in the individual-dependency branch
(src/commits.ts lines 184-202): skip private workspaces, otherwise push the
commit once per declared dependency name occurring in the subject. -/
def indivStep (subject : String) (pc : ParsedCommit) (acc : WsMap × Bool)
    (p : String × Workspace) : WsMap × Bool :=
  if p.2.isPrivate then acc
  else
    let ms := p.2.dependencyNames.filter (fun d => strContains subject d)
    if ms.isEmpty then acc
    else
      (updateWs acc.1 p.1
        (fun w => { w with changed := true, commits := w.commits ++ ms.map (fun _ => pc) }),
       true)

/-- The individual-dependency branch of `parseCommits` (src/commits.ts lines
182-203): for every non-private workspace, append the commit once per
declared dependency name that occurs in the subject as a substring. -/
def applyIndividualDeps (subject : String) (pc : ParsedCommit) (st : WsMap × Bool) :
    WsMap × Bool :=
  st.1.foldl (indivStep subject pc) st

/-- Parser output for one raw commit as `parseCommits` sees it: the parser is
fed `subject + "\n\n" + body` (src/commits.ts line 133). -/
def parsedOf (c : RawCommit) : ParsedFields :=
  parseRaw (c.subject ++ "\n\n" ++ c.body)

/-- One iteration of the `for (const commit of commits)` loop of
`parseCommits` (src/commits.ts lines 132-205): parse, validate (subject,
type and scope all truthy and the type allowed), attribute by direct scope
match, then run the dependency-update handling when the scope is `deps`. -/
def commitStep (git : GitOracle) (rel : String → String → String) (rootPath : String)
    (st : WsMap × Bool) (c : RawCommit) : WsMap × Bool :=
  let f := parsedOf c
  match f.subject, f.type, f.scope with
  | some subj, some ty, some sc =>
    if subj = "" || ty = "" || sc = "" || !(isAllowedType ty) then st
    else
      let pc : ParsedCommit :=
        { subject := subj, type := ty, scope := sc, notes := f.notes,
          breaking := f.notes.any (fun n => n.title = "BREAKING CHANGE"),
          hash := c.hash }
      let st1 :=
        match lookupWs st.1 sc with
        | some _ => (updateWs st.1 sc (pushCommit pc), true)
        | none => st
      if sc = "deps" then
        if isDependabotGroupCommit subj sc && optTruthy c.hash then
          applyGroupFanOut git rel rootPath (c.hash.getD "") pc st1
        else
          applyIndividualDeps subj pc st1
      else st1
  | _, _, _ => st

/-- Faithful translation of `parseCommits` (src/commits.ts lines 123-211);
the boolean is the `workspaceChanged` flag. -/
def parseCommits (git : GitOracle) (rel : String → String → String)
    (commits : List RawCommit) (workspaces : WsMap) (rootPath : String) : WsMap × Bool :=
  commits.foldl (commitStep git rel rootPath) (workspaces, false)

/-- The repo-wide aggregation loop of `processMonorepo` (orchestrator source,
src/unnamed/part_002 lines 76-87): running maximum over the changed
workspaces' per-workspace decisions, seeded with `patch`, compared through
`TypeHierarchy`. -/
def aggregateBump (wsList : List Workspace) : BumpType :=
  wsList.foldl
    (fun acc w =>
      if w.changed then
        let b := determineVersionBumpType w.commits
        if TypeHierarchy b > TypeHierarchy acc then b else acc
      else acc)
    .patch

/-- Outcome of the orchestrator's decision head: rejection of an invalid
override, the no-change skip, or proceeding with a chosen bump type. -/
inductive RunOutcome where
  | invalidType
  | skip
  | proceed (bump : BumpType)
deriving DecidableEq, Repr

/-- Name-to-bump conversion for a validated `--type` override (the
`type as BumpType` cast, reachable only after membership in
`Object.keys(TypeHierarchy)` was checked). -/
def bumpOfName (s : String) : BumpType :=
  if s = "major" then .major else if s = "minor" then .minor else .patch

/-- Decision head of `processMonorepo` (src/unnamed/part_002 lines 32-89):
an invalid truthy override is rejected before any work; no workspace change
and no override yields the skip outcome; otherwise the bump type is the
override if supplied, else the aggregate over the workspaces. -/
def processMonorepoDecision (wsAfter : WsMap) (workspaceChanged : Bool)
    (typeOpt : Option String) : RunOutcome :=
  if optTruthy typeOpt && !(["major", "minor", "patch"].contains (typeOpt.getD "")) then
    .invalidType
  else if !workspaceChanged && !(optTruthy typeOpt) then .skip
  else if optTruthy typeOpt then .proceed (bumpOfName (typeOpt.getD ""))
  else .proceed (aggregateBump (wsAfter.map (fun p => p.2)))

/-- Binary maximum of bump types under the `patch < minor < major` ordering,
written from the spec's description of the repo-wide reducer. -/
def bumpMax (a b : BumpType) : BumpType :=
  if TypeHierarchy b > TypeHierarchy a then b else a

/-- Maximum of a list of bump types, seeded with the bottom element `patch`
(spec-side definition used to state the aggregation claim). -/
def maxBumpOver (l : List BumpType) : BumpType := l.foldl bumpMax .patch

/-- A trivial git oracle for scenarios that never consult the VCS. -/
def gitStub : GitOracle := ⟨fun _ _ => [], fun _ _ _ => ""⟩

/-- A trivial stand-in for `node:path`'s `relative` for scenarios that never
match file paths. -/
def relStub : String → String → String := fun _ p => p

/-- Concrete model of `relative(root, p)` for the scenarios used here: drop
the root prefix and the separating slash. -/
def relModel (root p : String) : String := String.mk (p.data.drop (root.data.length + 1))

/-- Workspace fixture builder used by the concrete scenarios (fresh
workspace: unchanged, no commits). -/
def mkWs (n p : String) (deps : List String) (priv : Bool) : Workspace :=
  { name := n, shortName := n, path := p, version := "1.0.0", changed := false,
    commits := [], dependencyNames := deps, isPrivate := priv }

/-- Single workspace whose path equals the repository root (the
single-package layout of the repository's own test
`handles single-package repo correctly with version bump commits`). -/
def rootPkg : Workspace := mkWs "root-pkg" "/test" [] false

/-- Workspace fixture for the version-bump-commit scenario. -/
def testPkg : Workspace := mkWs "test-pkg" "/test/test-pkg" [] false

/-- Two-workspace (multi-package) fixture map. -/
def twoWs : WsMap :=
  [("workspace-a", mkWs "workspace-a" "/test/packages/workspace-a" [] false),
   ("workspace-b", mkWs "workspace-b" "/test/packages/workspace-b" [] false)]

/-- Raw commit without the breaking marker but with a `BREAKING CHANGE` body
note (the input of the repository test `detects breaking changes from
notes`). -/
def c1raw : RawCommit :=
  ⟨some "abc123", "feat(workspace-a): add breaking feature",
   "This feature has breaking changes.\n\nBREAKING CHANGE: API has changed significantly"⟩

/-- Single-entry workspace map for the breaking-note scenario. -/
def c1ws : WsMap := [("workspace-a", mkWs "workspace-a" "/test/packages/workspace-a" [] false)]

/-- The parsed commit produced for `c1raw`: breaking is true though the
header carried no `!` marker. -/
def c1pc : ParsedCommit :=
  ⟨"add breaking feature", "feat", "workspace-a",
   [⟨"BREAKING CHANGE", "API has changed significantly"⟩], true, some "abc123"⟩

/-- Public/private workspace pair for the grouped dependency-update
scenario. -/
def c7ws : WsMap :=
  [("lib", mkWs "lib" "/test/packages/lib" [] false),
   ("internal", mkWs "internal" "/test/packages/internal" [] true)]

/-- Changed files reported for the grouped dependency-update scenario: one
manifest under the public workspace, one under the private workspace. -/
def c7files : List String :=
  ["packages/lib/package.json", "packages/internal/package.json"]

/-- Git oracle for the grouped scenario: every requested diff shows an
addition inside the `"dependencies"` section. -/
def c7git : GitOracle :=
  ⟨fun _ _ => c7files,
   fun _ _ _ => "@@ -10,6 +10,7 @@\n   \"dependencies\": \x7b\n+    \"lodash\": \"^4.17.21\",\n     \"react\": \"^18.0.0\"\n   \x7d"⟩

/-- Parsed commit fixture for the grouped dependency-update scenario. -/
def c7pc : ParsedCommit :=
  ⟨"bump the production group with 5 updates", "chore", "deps", [], false, some "abc123"⟩

/-- Workspace fixture with two dependency names that both occur in the
individual dependency-update subject (`\"lodash\"` contains `\"dash\"`). -/
def c10pkg : Workspace := mkWs "workspace-a" "/test/packages/workspace-a" ["lodash", "dash"] false

/-- Raw commit for the individual dependency-update scenario. -/
def c10raw : RawCommit :=
  ⟨some "abc123", "chore(deps): bump lodash from 4.17.20 to 4.17.21", "Bumps lodash to latest version"⟩

/-- Parsed form of the individual dependency-update commit as `parseCommits`
builds it. -/
def c10pc : ParsedCommit :=
  ⟨"bump lodash from 4.17.20 to 4.17.21", "chore", "deps", [], false, some "abc123"⟩

/-- Raw commit with a syntactically valid header and an empty subject. -/
def c9raw : RawCommit := ⟨some "a1", "fix(workspace-a): ", ""⟩

/-- Changed workspaces fixture for the aggregation scenario: one unchanged
workspace with a breaking commit (to show it is ignored) and one changed
workspace with a minor-mapped commit. -/
def c5unchanged : Workspace :=
  { name := "idle", shortName := "idle", path := "/r/idle", version := "1.0.0",
    changed := false, commits := [⟨"big", "feat", "idle", [], true, none⟩],
    dependencyNames := [], isPrivate := false }

/-- Changed workspace carrying a `feat` commit (minor-worthy). -/
def c5changed : Workspace :=
  { name := "core", shortName := "core", path := "/r/core", version := "1.0.0",
    changed := true, commits := [⟨"add x", "feat", "core", [], false, none⟩],
    dependencyNames := [], isPrivate := false }

/-- Workspace list for the aggregation witness. -/
def c5list : List Workspace := [c5unchanged, c5changed]

/-- The scan loop of `determineVersionBumpType` computes exactly the
any-minor test. -/
theorem bumpScanLoop_eq (cs : List ParsedCommit) :
    bumpScanLoop cs =
      if cs.any (fun c => decide (changeTypeOf c.type = some BumpType.minor)) then
        BumpType.minor
      else BumpType.patch := by
  induction cs with
  | nil => rfl
  | cons c rest ih =>
    by_cases h : changeTypeOf c.type = some BumpType.minor
    · simp [bumpScanLoop, h]
    · simp [bumpScanLoop, h, ih]

/-- C4: `determineVersionBumpType` returns `major` as soon as any commit is
breaking; otherwise `minor` when some commit's type maps to `minor` in the
type-to-bump table, else `patch`; and the empty list yields `patch`. -/
theorem claim_C4_bump_decision_rule (cs : List ParsedCommit) :
    (determineVersionBumpType cs =
      if cs.any (fun c => c.breaking) then BumpType.major
      else
        if cs.any (fun c => decide (changeTypeOf c.type = some BumpType.minor)) then
          BumpType.minor
        else BumpType.patch)
    ∧ determineVersionBumpType ([] : List ParsedCommit) = BumpType.patch := by
  constructor
  · by_cases h : cs.any (fun c => c.breaking) = true
    · simp [determineVersionBumpType, h]
    · simp [determineVersionBumpType, h, bumpScanLoop_eq]
  · rfl

/-- The scanner returns true on a line list exactly when some line passes
the hit test under the state holding after its own boundary update. -/
theorem scanDeps_iff (ls : List String) : ∀ st : ScanState,
    scanDeps st ls = true ↔ ∃ p ∈ statesAlong st ls, lineHit p.1 p.2 = true := by
  induction ls with
  | nil => intro st; simp [scanDeps, statesAlong]
  | cons l ls ih =>
    intro st
    by_cases h : lineHit (stepState st l) l = true
    · simp [scanDeps, statesAlong, h]
    · simp [scanDeps, statesAlong, h, ih]

/-- C6: `hasProductionDependencyChanges` returns true iff, scanning the diff
line by line with the section-boundary rules, some line whose in-force state
is inside the `"dependencies"` section begins with `+` or `-` and does not
itself contain `"dependencies"`; otherwise it returns false.  Purity and
determinism are inherent: the definition is a function of the input text. -/
theorem claim_C6_prod_dep_scan_characterisation (diff : String) :
    hasProductionDependencyChanges diff = true ↔
      ∃ p ∈ statesAlong ⟨false, false⟩ (lineSplit diff), lineHit p.1 p.2 = true :=
  scanDeps_iff (lineSplit diff) ⟨false, false⟩

/-- C8: with no workspace changed and no override supplied, the orchestrator
decision is the distinguished skip outcome, which differs from every
proceed-with-bump outcome (in particular from `patch`). -/
theorem claim_C8_skip_is_distinguished (wsAfter : WsMap) :
    processMonorepoDecision wsAfter false none = RunOutcome.skip
    ∧ ∀ b : BumpType, RunOutcome.skip ≠ RunOutcome.proceed b := by
  refine ⟨rfl, ?_⟩
  intro b h
  exact RunOutcome.noConfusion h

/-- C1 is false on this code: the commit `feat(workspace-a): add breaking
feature` whose body carries a `BREAKING CHANGE` footer has no `!` marker
(the breaking header pattern does not match), yet the stored ParsedCommit
has `breaking = true` — a body note alone flips the flag. -/
theorem claim_C1_cex_note_alone_sets_breaking :
    matchHeaderCore true "feat(workspace-a): add breaking feature" = none
    ∧ ((parseCommits gitStub relStub [c1raw] c1ws "/test").1.map (fun p => p.2.commits))
        = [[c1pc]]
    ∧ c1pc.breaking = true :=
  ⟨by decide, by decide, by decide⟩

/-- C1 (amended): the `breaking` flag computed by `parseCommits` is exactly
"the parsed notes contain a note titled BREAKING CHANGE", which holds iff
the body carried such a note or the body carried no notes and the header
matched the breaking pattern (which synthesises the note).  The concrete
conjunct shows the note-only commit is stored breaking and drives the bump
decision to `major`. -/
theorem claim_C1_amended_breaking_from_notes :
    (∀ input : String,
      (parseRaw input).notes.any (fun n => n.title = "BREAKING CHANGE") =
        ((bodyNotesOf input).any (fun n => n.title = "BREAKING CHANGE")
          || ((bodyNotesOf input).isEmpty
              && (matchHeaderCore true (headerLineOf input)).isSome)))
    ∧ determineVersionBumpType [c1pc] = BumpType.major := by
  constructor
  · intro input
    simp only [parseRaw]
    cases hbm : matchHeaderCore true (headerLineOf input) with
    | none =>
      cases hhm : matchHeaderCore false (headerLineOf input) <;> simp [hbm, hhm]
    | some v =>
      obtain ⟨ty, sc, subj⟩ := v
      by_cases he : (bodyNotesOf input).isEmpty
      · have hnil : bodyNotesOf input = [] := by simpa [List.isEmpty_iff] using he
        simp [hbm, he, hnil]
      · simp [hbm, he]
  · decide

/-- C2 is violated by this code: in a repository with exactly one workspace
whose path equals the root path, a scopeless `feat` commit is skipped by the
validation (`!scope`) instead of being attributed to the sole workspace, and
the repo-changed flag stays false.  The repository's own test
`handles single-package repo correctly with version bump commits` asserts
the attribution the claim describes. -/
theorem claim_C2_code_skips_scopeless_in_single_workspace_repo :
    parseCommits gitStub relStub
      [⟨some "abc123", "feat: add new feature", "This is a feature commit"⟩]
      [("root-pkg", rootPkg)] "/test" = ([("root-pkg", rootPkg)], false) := by
  decide

/-- C3 is violated by this code: the scoped commit `chore(test-pkg): bump
version to 1.0.0` is attributed to the scoped workspace (nothing filters
version-bump subjects — the `isVersionBumpCommit` pre-filter referenced by
the tests does not exist in src/commits.ts), and in the claim's single-workspace
scenario no commit at all survives (all three are scopeless), so the
aggregate could not be `minor`. -/
theorem claim_C3_version_bump_commit_attributed :
    ((parseCommits gitStub relStub
        [⟨some "def456", "chore(test-pkg): bump version to 1.0.0", "This is a version bump commit"⟩]
        [("test-pkg", testPkg)] "/test").1.map
        (fun p => p.2.commits.map (fun pc => (pc.type, pc.subject))))
      = [[("chore", "bump version to 1.0.0")]]
    ∧ parseCommits gitStub relStub
        [⟨some "h1", "feat: add x", ""⟩, ⟨some "h2", "chore: bump version to 1.0.0", ""⟩,
         ⟨some "h3", "fix: y", ""⟩]
        [("root-pkg", rootPkg)] "/test" = ([("root-pkg", rootPkg)], false) :=
  ⟨by decide, by decide⟩

/-- C9 is false on this code: the header `fix(workspace-a): ` is
syntactically valid (allowed type, present scope matching a workspace, empty
subject), yet `parseCommits` discards the commit — the validation requires a
non-empty subject. -/
theorem claim_C9_cex_empty_subject_commit_dropped :
    matchHeaderCore false "fix(workspace-a): " = some ("fix", some "workspace-a", "")
    ∧ isAllowedType "fix" = true
    ∧ parseCommits gitStub relStub [c9raw] twoWs "/test" = (twoWs, false) :=
  ⟨by decide, by decide, by decide⟩

/-- C9 (amended): a commit whose parsed subject is the empty string is
discarded by the attribution step exactly like one with an absent or
disallowed type: the loop iteration leaves the workspace map and the
repo-changed flag untouched. -/
theorem claim_C9_amended_empty_subject_discarded (git : GitOracle)
    (rel : String → String → String) (rootPath : String) (ws : WsMap) (flag : Bool)
    (c : RawCommit) (h : (parsedOf c).subject = some "") :
    commitStep git rel rootPath (ws, flag) c = (ws, flag) := by
  unfold commitStep
  rcases ht : (parsedOf c).type with _ | ty <;>
    rcases hs : (parsedOf c).scope with _ | sc <;>
      simp [h, ht, hs]

/-- Witness for the amended C9 at the concrete empty-subject commit. -/
theorem claim_C9_amended_witness :
    (parsedOf c9raw).subject = some ""
    ∧ commitStep gitStub relStub "/test" (twoWs, false) c9raw = (twoWs, false) :=
  ⟨by decide,
   claim_C9_amended_empty_subject_discarded gitStub relStub "/test" twoWs false c9raw (by decide)⟩

/-- The first argument never exceeds the binary bump maximum. -/
theorem hier_le_bumpMax_left (a b : BumpType) :
    TypeHierarchy a ≤ TypeHierarchy (bumpMax a b) := by
  unfold bumpMax
  split <;> omega

/-- The second argument never exceeds the binary bump maximum. -/
theorem hier_le_bumpMax_right (a b : BumpType) :
    TypeHierarchy b ≤ TypeHierarchy (bumpMax a b) := by
  unfold bumpMax
  split <;> omega

/-- The aggregation fold over workspaces equals the bump-maximum fold over
the per-workspace decisions of the changed workspaces. -/
theorem aggregate_foldl_eq (ws : List Workspace) : ∀ acc : BumpType,
    ws.foldl
      (fun acc w =>
        if w.changed then
          let b := determineVersionBumpType w.commits
          if TypeHierarchy b > TypeHierarchy acc then b else acc
        else acc)
      acc
      = ((ws.filter (fun w => w.changed)).map
          (fun w => determineVersionBumpType w.commits)).foldl bumpMax acc := by
  induction ws with
  | nil => intro acc; rfl
  | cons w ws ih =>
    intro acc
    by_cases h : w.changed
    · simp only [List.foldl_cons, List.filter_cons, h, if_pos, List.map_cons]
      rw [ih]
      rfl
    · simp only [List.foldl_cons, List.filter_cons, h, List.map_cons]
      simp only [Bool.false_eq_true, if_false]
      exact ih acc

/-- Every element of the list, and the seed, is bounded by the fold of
`bumpMax`. -/
theorem le_foldl_bumpMax (l : List BumpType) : ∀ acc : BumpType,
    TypeHierarchy acc ≤ TypeHierarchy (l.foldl bumpMax acc)
    ∧ ∀ b ∈ l, TypeHierarchy b ≤ TypeHierarchy (l.foldl bumpMax acc) := by
  induction l with
  | nil =>
    intro acc
    exact ⟨le_refl _, by simp⟩
  | cons x l ih =>
    intro acc
    constructor
    · exact le_trans (hier_le_bumpMax_left acc x) (ih (bumpMax acc x)).1
    · intro b hb
      rcases List.mem_cons.mp hb with rfl | hb
      · exact le_trans (hier_le_bumpMax_right acc b) (ih (bumpMax acc b)).1
      · exact (ih (bumpMax acc x)).2 b hb

/-- The fold of `bumpMax` yields either the seed or a list element. -/
theorem foldl_bumpMax_mem (l : List BumpType) : ∀ acc : BumpType,
    l.foldl bumpMax acc = acc ∨ l.foldl bumpMax acc ∈ l := by
  induction l with
  | nil => intro acc; exact Or.inl rfl
  | cons x l ih =>
    intro acc
    rw [List.foldl_cons]
    rcases ih (bumpMax acc x) with h | h
    · rw [h]
      unfold bumpMax
      split
      · exact Or.inr (List.mem_cons_self _ _)
      · exact Or.inl rfl
    · exact Or.inr (List.mem_cons_of_mem _ h)

/-- A bump type of hierarchy at most one is `patch`. -/
theorem bump_eq_patch_of_hier_le_one (b : BumpType) (h : TypeHierarchy b ≤ 1) :
    b = BumpType.patch := by
  cases b
  · exact absurd h (by decide)
  · exact absurd h (by decide)
  · rfl

/-- On a non-empty list the bump maximum is attained by some element. -/
theorem maxBumpOver_mem (l : List BumpType) (h : ¬(l = [])) : maxBumpOver l ∈ l := by
  unfold maxBumpOver
  rcases foldl_bumpMax_mem l .patch with hm | hm
  · rcases l with _ | ⟨x, l⟩
    · exact absurd rfl h
    · have hb := (le_foldl_bumpMax (x :: l) .patch).2 x (List.mem_cons_self _ _)
      rw [hm] at hb
      have hx : x = BumpType.patch := bump_eq_patch_of_hier_le_one x hb
      rw [hm, ← hx]
      exact List.mem_cons_self _ _
  · exact hm

/-- C5: with at least one changed workspace, the repo-wide bump computed by
the orchestrator (no override) is the maximum under `patch < minor < major`
of `determineVersionBumpType` over the changed workspaces: it equals the
bump-maximum of their decisions, bounds every changed workspace's decision
from above, is attained by one of them (so unchanged workspaces cannot
influence it — they are filtered out of the formula), and is exactly what
the decision head proceeds with when no override is supplied. -/
theorem claim_C5_aggregate_is_changed_max (wsList : List Workspace)
    (h : ¬(wsList.filter (fun w => w.changed) = [])) :
    (aggregateBump wsList =
      maxBumpOver ((wsList.filter (fun w => w.changed)).map
        (fun w => determineVersionBumpType w.commits)))
    ∧ (∀ w ∈ wsList, w.changed = true →
        TypeHierarchy (determineVersionBumpType w.commits)
          ≤ TypeHierarchy (aggregateBump wsList))
    ∧ (aggregateBump wsList ∈
        (wsList.filter (fun w => w.changed)).map
          (fun w => determineVersionBumpType w.commits))
    ∧ (∀ m : WsMap, processMonorepoDecision m true none =
        RunOutcome.proceed (aggregateBump (m.map (fun p => p.2)))) := by
  have heq : aggregateBump wsList =
      maxBumpOver ((wsList.filter (fun w => w.changed)).map
        (fun w => determineVersionBumpType w.commits)) := by
    unfold aggregateBump maxBumpOver
    exact aggregate_foldl_eq wsList .patch
  refine ⟨heq, ?_, ?_, ?_⟩
  · intro w hw hc
    rw [heq]
    exact (le_foldl_bumpMax _ .patch).2 _
      (List.mem_map_of_mem _ (List.mem_filter_of_mem hw (by simp [hc])))
  · rw [heq]
    refine maxBumpOver_mem _ ?_
    intro hnil
    exact h (by simpa using hnil)
  · intro m
    rfl

/-- Witness for C5 at a concrete two-workspace list: one unchanged workspace
(carrying a breaking commit, ignored) and one changed workspace with a
`feat` commit; the aggregate is their changed-only maximum `minor`. -/
theorem claim_C5_witness_concrete :
    (¬(c5list.filter (fun w => w.changed) = []))
    ∧ (aggregateBump c5list =
        maxBumpOver ((c5list.filter (fun w => w.changed)).map
          (fun w => determineVersionBumpType w.commits)))
    ∧ (TypeHierarchy (determineVersionBumpType c5changed.commits)
        ≤ TypeHierarchy (aggregateBump c5list))
    ∧ (aggregateBump c5list ∈
        (c5list.filter (fun w => w.changed)).map
          (fun w => determineVersionBumpType w.commits))
    ∧ aggregateBump c5list = BumpType.minor :=
  ⟨by decide,
   (claim_C5_aggregate_is_changed_max c5list (by decide)).1,
   (claim_C5_aggregate_is_changed_max c5list (by decide)).2.1 c5changed (by decide) (by decide),
   (claim_C5_aggregate_is_changed_max c5list (by decide)).2.2.1,
   by decide⟩

/-- A map entry with a key other than the updated one is preserved. -/
theorem mem_updateWs_of_ne (m : WsMap) (p : String × Workspace) (k : String)
    (f : Workspace → Workspace) (hp : p ∈ m) (hne : ¬(p.1 = k)) : p ∈ updateWs m k f := by
  unfold updateWs
  have h := List.mem_map_of_mem (fun q => if q.1 = k then (q.1, f q.2) else q) hp
  simpa [hne] using h

/-- Updating one key leaves lookups of other keys unchanged. -/
theorem lookupWs_updateWs_ne (m : WsMap) (k k' : String) (f : Workspace → Workspace)
    (h : ¬(k = k')) : lookupWs (updateWs m k' f) k = lookupWs m k := by
  induction m with
  | nil => rfl
  | cons p ps ih =>
    simp only [updateWs, List.map_cons]
    by_cases hp : p.1 = k'
    · have hpk : ¬(p.1 = k) := by rw [hp]; exact fun hh => h hh.symm
      rw [if_pos hp]
      unfold lookupWs
      rw [List.find?_cons_of_neg _ (by simpa using hpk),
        List.find?_cons_of_neg _ (by simpa using hpk)]
      exact ih
    · rw [if_neg hp]
      by_cases hk : p.1 = k
      · unfold lookupWs
        rw [List.find?_cons_of_pos _ (by simpa using hk),
          List.find?_cons_of_pos _ (by simpa using hk)]
      · unfold lookupWs
        rw [List.find?_cons_of_neg _ (by simpa using hk),
          List.find?_cons_of_neg _ (by simpa using hk)]
        exact ih

/-- Lookup after updating the looked-up key applies the update function. -/
theorem lookupWs_updateWs_eq (m : WsMap) (k : String) (f : Workspace → Workspace) :
    lookupWs (updateWs m k f) k = (lookupWs m k).map f := by
  induction m with
  | nil => rfl
  | cons p ps ih =>
    simp only [updateWs, List.map_cons]
    by_cases hp : p.1 = k
    · rw [if_pos hp]
      unfold lookupWs
      rw [List.find?_cons_of_pos _ (by simpa using hp),
        List.find?_cons_of_pos _ (by simpa using hp)]
      rfl
    · rw [if_neg hp]
      unfold lookupWs
      rw [List.find?_cons_of_neg _ (by simpa using hp),
        List.find?_cons_of_neg _ (by simpa using hp)]
      exact ih

/-- With unique keys, a member entry is what lookup returns. -/
theorem lookupWs_of_mem_nodup (m : WsMap) (k : String) (w : Workspace)
    (hmem : (k, w) ∈ m) (hnodup : (m.map Prod.fst).Nodup) : lookupWs m k = some w := by
  induction m with
  | nil => cases hmem
  | cons p ps ih =>
    rcases List.mem_cons.mp hmem with heq | hmem'
    · rw [← heq]
      unfold lookupWs
      rw [List.find?_cons_of_pos _ (by simp)]
      rfl
    · have hk : ¬(p.1 = k) := by
        intro hpk
        have hkm : k ∈ ps.map Prod.fst := List.mem_map_of_mem Prod.fst hmem'
        rw [List.map_cons] at hnodup
        exact (List.nodup_cons.mp hnodup).1 (hpk ▸ hkm)
      unfold lookupWs
      rw [List.find?_cons_of_neg _ (by simpa using hk)]
      exact ih hmem' (by rw [List.map_cons] at hnodup; exact (List.nodup_cons.mp hnodup).2)

/-- With unique keys, two entries sharing a key carry the same workspace. -/
theorem ws_value_unique (m : WsMap) (k : String) (w w' : Workspace)
    (hnodup : (m.map Prod.fst).Nodup) (h1 : (k, w) ∈ m) (h2 : (k, w') ∈ m) : w = w' := by
  have e1 := lookupWs_of_mem_nodup m k w h1 hnodup
  have e2 := lookupWs_of_mem_nodup m k w' h2 hnodup
  rw [e1] at e2
  exact Option.some.inj e2

/-- Any affected entry produced for one file is the file's owner and is not
private. -/
theorem fanOutFile_affected_spec (git : GitOracle) (rel : String → String → String)
    (ws : WsMap) (rootPath hash f : String) (kw : String × Workspace)
    (h : kw ∈ (fanOutFile git rel ws rootPath hash f).1) :
    ownerScan rel ws rootPath f = some kw ∧ kw.2.isPrivate = false := by
  unfold fanOutFile at h
  by_cases hf : f = "package.json"
  · rw [if_pos hf] at h; cases h
  · rw [if_neg hf] at h
    cases ho : ownerScan rel ws rootPath f with
    | none => simp only [ho] at h; cases h
    | some kw' =>
      simp only [ho] at h
      by_cases hp : kw'.2.isPrivate
      · rw [if_pos hp] at h; cases h
      · rw [if_neg hp] at h
        dsimp only at h
        by_cases hd : hasProductionDependencyChanges (git.getFileDiff rootPath hash f) = true
        · rw [if_pos hd] at h
          have := List.mem_singleton.mp h
          subst this
          exact ⟨rfl, by simpa using hp⟩
        · rw [if_neg hd] at h; cases h

/-- Any requested file equals the processed file, and its owner exists and
is not private. -/
theorem fanOutFile_requests_spec (git : GitOracle) (rel : String → String → String)
    (ws : WsMap) (rootPath hash f : String) (x : String)
    (h : x ∈ (fanOutFile git rel ws rootPath hash f).2) :
    x = f ∧ ∃ kw, ownerScan rel ws rootPath f = some kw ∧ kw.2.isPrivate = false := by
  unfold fanOutFile at h
  by_cases hf : f = "package.json"
  · rw [if_pos hf] at h; cases h
  · rw [if_neg hf] at h
    cases ho : ownerScan rel ws rootPath f with
    | none => simp only [ho] at h; cases h
    | some kw' =>
      simp only [ho] at h
      by_cases hp : kw'.2.isPrivate
      · rw [if_pos hp] at h; cases h
      · rw [if_neg hp] at h
        dsimp only at h
        have := List.mem_singleton.mp h
        exact ⟨this, kw', rfl, by simpa using hp⟩

/-- Membership in the instrumented fan-out fold: an element is either in the
accumulator or contributed by one of the files. -/
theorem fanAcc_foldl_mem (git : GitOracle) (rel : String → String → String)
    (ws : WsMap) (rootPath hash : String) (fs : List String) :
    ∀ acc : List (String × Workspace) × List String,
      (∀ kw, kw ∈ (fs.foldl (fanAcc git rel ws rootPath hash) acc).1 ↔
        kw ∈ acc.1 ∨ ∃ f ∈ fs, kw ∈ (fanOutFile git rel ws rootPath hash f).1)
      ∧ (∀ x, x ∈ (fs.foldl (fanAcc git rel ws rootPath hash) acc).2 ↔
        x ∈ acc.2 ∨ ∃ f ∈ fs, x ∈ (fanOutFile git rel ws rootPath hash f).2) := by
  induction fs with
  | nil => intro acc; simp
  | cons f fs ih =>
    intro acc
    constructor
    · intro kw
      rw [List.foldl_cons, (ih (fanAcc git rel ws rootPath hash acc f)).1 kw]
      simp only [fanAcc, List.mem_append, List.mem_cons]
      constructor
      · rintro ((h | h) | ⟨f', hf', h⟩)
        · exact Or.inl h
        · exact Or.inr ⟨f, Or.inl rfl, h⟩
        · exact Or.inr ⟨f', Or.inr hf', h⟩
      · rintro (h | ⟨f', (rfl | hf'), h⟩)
        · exact Or.inl (Or.inl h)
        · exact Or.inl (Or.inr h)
        · exact Or.inr ⟨f', hf', h⟩
    · intro x
      rw [List.foldl_cons, (ih (fanAcc git rel ws rootPath hash acc f)).2 x]
      simp only [fanAcc, List.mem_append, List.mem_cons]
      constructor
      · rintro ((h | h) | ⟨f', hf', h⟩)
        · exact Or.inl h
        · exact Or.inr ⟨f, Or.inl rfl, h⟩
        · exact Or.inr ⟨f', Or.inr hf', h⟩
      · rintro (h | ⟨f', (rfl | hf'), h⟩)
        · exact Or.inl (Or.inl h)
        · exact Or.inl (Or.inr h)
        · exact Or.inr ⟨f', hf', h⟩

/-- A fold of group updates over keys all different from an entry's key
preserves the entry. -/
theorem groupStep_foldl_preserve (pc : ParsedCommit) (l : List (String × Workspace)) :
    ∀ (acc : WsMap × Bool) (p : String × Workspace), p ∈ acc.1 →
      (∀ kw ∈ l, ¬(p.1 = kw.1)) → p ∈ (l.foldl (groupStep pc) acc).1 := by
  induction l with
  | nil => intro acc p hp _; exact hp
  | cons kw l ih =>
    intro acc p hp hkeys
    rw [List.foldl_cons]
    refine ih _ p ?_ (fun kw' h' => hkeys kw' (List.mem_cons_of_mem _ h'))
    unfold groupStep
    split
    · exact hp
    · exact mem_updateWs_of_ne _ _ _ _ hp (hkeys kw (List.mem_cons_self _ _))

/-- C7: during grouped dependency-update resolution, no diff is requested
for a changed manifest owned by a private workspace (the owner is skipped
before the `getFileDiff` call), the affected list contains no private
workspace, and the fan-out application leaves every private workspace's map
entry untouched (no commit appended, `changed` not set). -/
theorem claim_C7_private_skipped_before_diff (git : GitOracle)
    (rel : String → String → String) (files : List String) (ws : WsMap)
    (rootPath hash : String) (hnodup : (ws.map Prod.fst).Nodup) :
    (∀ file kw, ownerScan rel ws rootPath file = some kw → kw.2.isPrivate = true →
      ¬(file ∈ (getAffectedWithRequests git rel files ws rootPath hash).2))
    ∧ (∀ kw ∈ (getAffectedWithRequests git rel files ws rootPath hash).1,
        kw.2.isPrivate = false)
    ∧ (∀ (pc : ParsedCommit) (flag : Bool) (p : String × Workspace),
        p ∈ ws → p.2.isPrivate = true →
        p ∈ (applyGroupFanOut git rel rootPath hash pc (ws, flag)).1) := by
  have hmem2 := fanAcc_foldl_mem git rel ws rootPath hash
    (files.filter (fun f => strEnds f "package.json"))
  refine ⟨?_, ?_, ?_⟩
  · intro file kw howner hpriv hin
    have hin2 : file ∈ ((files.filter (fun f => strEnds f "package.json")).foldl
        (fanAcc git rel ws rootPath hash) ([], [])).2 := hin
    rcases ((hmem2 ([], [])).2 file).mp hin2 with h | ⟨f, _, h⟩
    · cases h
    · obtain ⟨rfl, kw', ho', hp'⟩ := fanOutFile_requests_spec git rel ws rootPath hash f file h
      rw [howner] at ho'
      have : kw = kw' := Option.some.inj ho'
      rw [← this] at hp'
      rw [hpriv] at hp'
      cases hp'
  · intro kw hin
    have hin2 : kw ∈ ((files.filter (fun f => strEnds f "package.json")).foldl
        (fanAcc git rel ws rootPath hash) ([], [])).1 := hin
    rcases ((hmem2 ([], [])).1 kw).mp hin2 with h | ⟨f, _, h⟩
    · cases h
    · exact (fanOutFile_affected_spec git rel ws rootPath hash f kw h).2
  · intro pc flag p hp hppriv
    unfold applyGroupFanOut
    refine groupStep_foldl_preserve pc _ (ws, flag) p hp ?_
    intro kw hkw
    have hkw2 : kw ∈ (((git.getChangedFiles rootPath hash).filter
        (fun f => strEnds f "package.json")).foldl
        (fanAcc git rel ws rootPath hash) ([], [])).1 := hkw
    rcases ((fanAcc_foldl_mem git rel ws rootPath hash
        ((git.getChangedFiles rootPath hash).filter (fun f => strEnds f "package.json"))
        ([], [])).1 kw).mp hkw2 with h | ⟨f, _, h⟩
    · cases h
    · obtain ⟨ho, hpf⟩ := fanOutFile_affected_spec git rel ws rootPath hash f kw h
      have hkwmem : kw ∈ ws := List.mem_of_find?_eq_some ho
      intro hkey
      have hw : p.2 = kw.2 := by
        have h1 : (p.1, p.2) ∈ ws := hp
        have h2 : (p.1, kw.2) ∈ ws := by
          rw [hkey]
          exact hkwmem
        exact ws_value_unique ws p.1 p.2 kw.2 hnodup h1 h2
      rw [hw, hpf] at hppriv
      cases hppriv

/-- Witness for C7 at the concrete grouped scenario: the private workspace
`internal` owns `packages/internal/package.json`; the request log contains
only the public workspace's manifest, and the private entry survives the
fan-out untouched. -/
theorem claim_C7_witness_concrete :
    ((c7ws.map Prod.fst).Nodup)
    ∧ ownerScan relModel c7ws "/test" "packages/internal/package.json" =
        some ("internal", mkWs "internal" "/test/packages/internal" [] true)
    ∧ (mkWs "internal" "/test/packages/internal" [] true).isPrivate = true
    ∧ ¬("packages/internal/package.json" ∈
        (getAffectedWithRequests c7git relModel c7files c7ws "/test" "abc123").2)
    ∧ (getAffectedWithRequests c7git relModel c7files c7ws "/test" "abc123").2 =
        ["packages/lib/package.json"]
    ∧ ("internal", mkWs "internal" "/test/packages/internal" [] true) ∈
        (applyGroupFanOut c7git relModel "/test" "abc123" c7pc (c7ws, false)).1 := by
  refine ⟨by decide, by decide, by decide, ?_, by decide, ?_⟩
  · exact (claim_C7_private_skipped_before_diff c7git relModel c7files c7ws "/test" "abc123"
      (by decide)).1 "packages/internal/package.json"
      ("internal", mkWs "internal" "/test/packages/internal" [] true) (by decide) (by decide)
  · exact (claim_C7_private_skipped_before_diff c7git relModel c7files c7ws "/test" "abc123"
      (by decide)).2.2 c7pc false
      ("internal", mkWs "internal" "/test/packages/internal" [] true) (by decide) (by decide)

/-- Mapping a constant function is replication. -/
theorem map_const_replicate {A B : Type} (l : List A) (b : B) :
    l.map (fun _ => b) = List.replicate l.length b := by
  induction l with
  | nil => rfl
  | cons x l ih => simp [List.replicate, ih]

/-- A fold of individual-dependency updates over entries whose keys all
differ from `k` does not change the lookup at `k`. -/
theorem indivStep_foldl_untouched (subject : String) (pc : ParsedCommit)
    (l : List (String × Workspace)) :
    ∀ (acc : WsMap × Bool) (k : String), (∀ p ∈ l, ¬(p.1 = k)) →
      lookupWs (l.foldl (indivStep subject pc) acc).1 k = lookupWs acc.1 k := by
  induction l with
  | nil => intro acc k _; rfl
  | cons p l ih =>
    intro acc k hkeys
    rw [List.foldl_cons, ih _ k (fun q hq => hkeys q (List.mem_cons_of_mem _ hq))]
    unfold indivStep
    split
    · rfl
    · dsimp only
      split
      · rfl
      · dsimp only
        exact lookupWs_updateWs_ne _ _ _ _
          (fun hh => hkeys p (List.mem_cons_self _ _) hh.symm)

/-- Lookup of a non-private workspace after the individual-dependency
branch: the commit is appended once per dependency name that occurs in the
subject, and the workspace is marked changed iff at least one matched. -/
theorem applyIndividualDeps_lookup (subject : String) (pc : ParsedCommit) (ws : WsMap)
    (flag : Bool) (k : String) (pkg : Workspace)
    (hmem : (k, pkg) ∈ ws) (hnodup : (ws.map Prod.fst).Nodup)
    (hpriv : pkg.isPrivate = false) :
    lookupWs (applyIndividualDeps subject pc (ws, flag)).1 k =
      some (if (pkg.dependencyNames.filter (fun d => strContains subject d)).isEmpty then pkg
            else { pkg with changed := true, commits := pkg.commits ++ (pkg.dependencyNames.filter (fun d => strContains subject d)).map (fun _ => pc) }) := by
  obtain ⟨l1, l2, rfl⟩ := List.append_of_mem hmem
  have hnd := hnodup
  rw [List.map_append, List.map_cons, List.nodup_append] at hnd
  obtain ⟨hnd1, hnd2, hdisj⟩ := hnd
  have hkl1 : ∀ p ∈ l1, ¬(p.1 = k) := by
    intro p hp hpk
    exact hdisj (List.mem_map_of_mem Prod.fst hp) (by rw [hpk]; exact List.mem_cons_self _ _)
  have hkl2 : ∀ p ∈ l2, ¬(p.1 = k) := by
    intro p hp hpk
    have hin : p.1 ∈ List.map Prod.fst l2 := List.mem_map_of_mem Prod.fst hp
    rw [hpk] at hin
    exact (List.nodup_cons.mp hnd2).1 hin
  unfold applyIndividualDeps
  rw [List.foldl_append, List.foldl_cons,
    indivStep_foldl_untouched subject pc l2 _ k hkl2]
  have hA : lookupWs
      ((l1.foldl (indivStep subject pc) (l1 ++ (k, pkg) :: l2, flag)).1) k = some pkg := by
    rw [indivStep_foldl_untouched subject pc l1 _ k hkl1]
    exact lookupWs_of_mem_nodup _ _ _ hmem hnodup
  unfold indivStep
  rw [if_neg (by simp [hpriv])]
  show lookupWs
      ((if (List.filter (fun d => strContains subject d) pkg.dependencyNames).isEmpty = true then
          l1.foldl (indivStep subject pc) (l1 ++ (k, pkg) :: l2, flag)
        else
          (updateWs (l1.foldl (indivStep subject pc) (l1 ++ (k, pkg) :: l2, flag)).1 k
            (fun w => { w with changed := true, commits := w.commits ++ (List.filter (fun d => strContains subject d) pkg.dependencyNames).map (fun x => pc) }), true)).1) k = _
  by_cases hms : (List.filter (fun d => strContains subject d) pkg.dependencyNames).isEmpty = true
  · rw [if_pos hms, if_pos hms]
    exact hA
  · rw [if_neg hms, if_neg hms]
    show lookupWs
      (updateWs (l1.foldl (indivStep subject pc) (l1 ++ (k, pkg) :: l2, flag)).1 k
        (fun w => { w with changed := true, commits := w.commits ++ (List.filter (fun d => strContains subject d) pkg.dependencyNames).map (fun x => pc) })) k = _
    rw [lookupWs_updateWs_eq, hA]
    rfl

/-- C10: on the individual dependency-update path (scope `deps`, subject not
matching the group pattern, hash not forcing the group branch, no workspace
keyed `deps`), a non-private workspace receives the commit once per declared
dependency name occurring in the subject — `List.replicate N` copies for `N`
matches, not one. -/
theorem claim_C10_one_append_per_matching_dependency (git : GitOracle)
    (rel : String → String → String) (rootPath : String) (ws : WsMap) (c : RawCommit)
    (subj ty : String) (notes : List Note) (k : String) (pkg : Workspace)
    (hf : parsedOf c = ⟨some ty, some "deps", some subj, notes⟩)
    (hsubj : ¬(subj = "")) (hty : ¬(ty = "")) (hallow : isAllowedType ty = true)
    (hgroup : (isDependabotGroupCommit subj "deps" && optTruthy c.hash) = false)
    (hnodeps : lookupWs ws "deps" = none)
    (hmem : (k, pkg) ∈ ws) (hnodup : (ws.map Prod.fst).Nodup)
    (hpriv : pkg.isPrivate = false) :
    lookupWs (parseCommits git rel [c] ws rootPath).1 k =
      some (if (pkg.dependencyNames.filter (fun d => strContains subj d)).isEmpty then pkg
            else { pkg with changed := true, commits := pkg.commits ++ List.replicate (pkg.dependencyNames.filter (fun d => strContains subj d)).length (ParsedCommit.mk subj ty "deps" notes (notes.any (fun n => n.title = "BREAKING CHANGE")) c.hash) }) := by
  have hstep : parseCommits git rel [c] ws rootPath =
      applyIndividualDeps subj
        ⟨subj, ty, "deps", notes, notes.any (fun n => n.title = "BREAKING CHANGE"), c.hash⟩
        (ws, false) := by
    show commitStep git rel rootPath (ws, false) c = _
    unfold commitStep
    rw [hf]
    show (if subj = "" || ty = "" || "deps" = "" || !(isAllowedType ty) then ((ws, false) : WsMap × Bool)
      else
        (if "deps" = "deps" then
          (if isDependabotGroupCommit subj "deps" && optTruthy c.hash then
            applyGroupFanOut git rel rootPath (c.hash.getD "")
              ⟨subj, ty, "deps", notes, notes.any (fun n => n.title = "BREAKING CHANGE"), c.hash⟩
              (match lookupWs ws "deps" with
               | some _ => (updateWs ws "deps" (pushCommit ⟨subj, ty, "deps", notes, notes.any (fun n => n.title = "BREAKING CHANGE"), c.hash⟩), true)
               | none => ((ws, false) : WsMap × Bool))
          else
            applyIndividualDeps subj
              ⟨subj, ty, "deps", notes, notes.any (fun n => n.title = "BREAKING CHANGE"), c.hash⟩
              (match lookupWs ws "deps" with
               | some _ => (updateWs ws "deps" (pushCommit ⟨subj, ty, "deps", notes, notes.any (fun n => n.title = "BREAKING CHANGE"), c.hash⟩), true)
               | none => ((ws, false) : WsMap × Bool)))
        else
          (match lookupWs ws "deps" with
           | some _ => (updateWs ws "deps" (pushCommit ⟨subj, ty, "deps", notes, notes.any (fun n => n.title = "BREAKING CHANGE"), c.hash⟩), true)
           | none => ((ws, false) : WsMap × Bool)))) = _
    rw [if_neg (by simp [hsubj, hty, hallow]), if_pos rfl, if_neg (by simp [hgroup]), hnodeps]
  rw [hstep,
    applyIndividualDeps_lookup subj _ ws false k pkg hmem hnodup hpriv,
    map_const_replicate]

/-- Witness for C10 at the concrete commit `chore(deps): bump lodash from
4.17.20 to 4.17.21` against a workspace declaring both `lodash` and `dash`:
the subject contains both names, so exactly two copies of the commit are
appended. -/
theorem claim_C10_witness_two_copies :
    parsedOf c10raw =
      ⟨some "chore", some "deps", some "bump lodash from 4.17.20 to 4.17.21", []⟩
    ∧ (c10pkg.dependencyNames.filter
        (fun d => strContains "bump lodash from 4.17.20 to 4.17.21" d)).length = 2
    ∧ List.replicate 2 c10pc = [c10pc, c10pc]
    ∧ lookupWs (parseCommits gitStub relStub [c10raw] [("workspace-a", c10pkg)] "/test").1
        "workspace-a" =
      some (if (c10pkg.dependencyNames.filter (fun d => strContains "bump lodash from 4.17.20 to 4.17.21" d)).isEmpty then c10pkg
            else { c10pkg with changed := true, commits := c10pkg.commits ++ List.replicate (c10pkg.dependencyNames.filter (fun d => strContains "bump lodash from 4.17.20 to 4.17.21" d)).length c10pc }) :=
  ⟨by decide, by decide, by decide,
   claim_C10_one_append_per_matching_dependency gitStub relStub "/test"
     [("workspace-a", c10pkg)] c10raw "bump lodash from 4.17.20 to 4.17.21" "chore" []
     "workspace-a" c10pkg (by decide) (by decide) (by decide) (by decide) (by decide)
     (by decide) (by decide) (by decide) (by decide)⟩

end BumpNGo
